import Mathlib

/-!
Verification development for gitlab2gogs (src/gitlab2gogs.py): a shallow
embedding of the repository-classification and import pipeline, together
with theorems settling the specification claims.

Python strings are modelled as Lean strings (lists of Unicode scalar
values).  Python library behaviour that the code relies on is embedded
explicitly:

- str.isalnum is Unicode-aware.  The embedding pyAlnumChar is exact on
  the ASCII range and additionally covers U+00E9 (é, a Unicode letter,
  for which Python returns True); it is the only non-ASCII codepoint
  exercised in this development.
- str.lower is modelled on the ASCII range (the only range the claims
  exercise).
- re.sub with the character class [^0-9a-zA-Z\-_\.\/] and the subsequent
  replace of / by . act independently per character, so they are fused
  into one per-character map (sanitizeChar).
- re.findall with the anchored pattern of gitlab2gogs.__iter__ is
  embedded in parseBundlePath below, including the two documented
  subtleties of Python regexes: the dot metacharacter never matches a
  newline, and the dollar anchor also matches just before one trailing
  newline at the end of the string.
-/

namespace Gitlab2Gogs

/-- Characters accepted by the character class [^0-9a-zA-Z\-_\.\/] used in
organizationNameFromGroupName (line 108 of gitlab2gogs.py): digits, ASCII
letters, hyphen, underscore, dot and slash. -/
def allowedChar (c : Char) : Bool :=
  ('0' ≤ c && c ≤ '9') || ('a' ≤ c && c ≤ 'z') || ('A' ≤ c && c ≤ 'Z')
    || c == '-' || c == '_' || c == '.' || c == '/'

/-- ASCII alphanumeric characters: digits and ASCII letters. -/
def asciiAlnumChar (c : Char) : Bool :=
  ('0' ≤ c && c ≤ '9') || ('a' ≤ c && c ≤ 'z') || ('A' ≤ c && c ≤ 'Z')

/-- Embedding of the per-character test behind Python str.isalnum.
Python classifies by Unicode properties; this embedding is exact on the
ASCII range and additionally includes U+00E9 (é), a Unicode letter for
which Python str.isalnum is true — the only non-ASCII codepoint used in
this development. -/
def pyAlnumChar (c : Char) : Bool :=
  asciiAlnumChar c || c.toNat == 0xE9

/-- Embedding of Python str.isalnum (line 107): true iff the string is
nonempty and every character is alphanumeric. -/
def pyIsAlnum (s : String) : Bool :=
  !s.toList.isEmpty && s.toList.all pyAlnumChar

/-- One character of the substitution branch of
organizationNameFromGroupName (line 108): re.sub replaces every character
outside [0-9a-zA-Z\-_./] with an underscore, then .replace turns every
slash into a dot.  Both act per character, so they fuse into this map. -/
def sanitizeChar (c : Char) : Char :=
  if allowedChar c then (if c == '/' then '.' else c) else '_'

/-- The substitution branch of organizationNameFromGroupName as a whole:
the per-character map applied to every character. -/
def sanitize (s : String) : String :=
  String.mk (s.toList.map sanitizeChar)

/-- GitlabBackup.organizationNameFromGroupName (lines 104-109): the name
itself when name.isalnum(), otherwise the sanitized name. -/
def organizationNameFromGroupName (name : String) : String :=
  if pyIsAlnum name then name else sanitize name

/-- Modelled from the spec (for comparison only): the contract claimed in
section 4.2 — identity when the string is composed solely of ASCII
alphanumerics, otherwise the substitution.  This is the claim-side
function; the code-side function above branches on Python isalnum
instead. -/
def claimOrgId (s : String) : String :=
  if s.toList.all asciiAlnumChar then s else sanitize s

/-- Embedding of Python str.lower on the ASCII range (Python lowercases by
Unicode tables; the claims only exercise ASCII case). -/
def pyLowerChar (c : Char) : Char :=
  if 'A' ≤ c && c ≤ 'Z' then Char.ofNat (c.toNat + 32) else c

/-- str.lower applied to a whole string. -/
def pyLower (s : String) : String :=
  String.mk (s.toList.map pyLowerChar)

/-- GitlabBackup.__init__ (line 18): the supplied usernames are stored
lower-cased. -/
def storedUsernames (usernames : List String) : List String :=
  usernames.map pyLower

/-- GitlabBackup.isUserRepo (lines 111-112): membership.lower() is tested
for membership in the stored (lower-cased) username list. -/
def isUserRepo (stored : List String) (membership : String) : Bool :=
  stored.contains (pyLower membership)

/-! ## Archive Index

GitlabBackup.__iter__ (lines 35-45) runs
re.findall with the anchored pattern matching repositories/ then a first
greedy dot-star group, a slash, a second greedy dot-star group and the
literal .bundle before the end anchor, over every tar member name, and
yields a record for every member where the pattern matches.  The Python
semantics embedded here: the caret anchors at position 0; the dot
metacharacter matches every character except a newline; the dollar anchor
matches at the very end of the string or just before one newline that is
the last character; greediness of the first group puts the group split at
the last slash of the middle segment. -/

/-- The characters of the literal path head repositories/ of the pattern. -/
def repoPathHead : List Char := "repositories/".toList

/-- The characters of the literal path tail .bundle of the pattern. -/
def bundleTail : List Char := ".bundle".toList

/-- The dollar anchor of a Python regex also matches just before a single
trailing newline; the match on a string ending in one newline is the match
on the string without it. -/
def stripTrailingNewline (l : List Char) : List Char :=
  if l.getLast? = some '\n' then l.dropLast else l

/-- Split a character list at its last slash, returning the parts before
and after it; none when the list has no slash.  This is where the greedy
first group of the pattern puts the group boundary. -/
def splitAtLastSlash : List Char → Option (List Char × List Char)
  | [] => none
  | c :: cs =>
    match splitAtLastSlash cs with
    | some (a, b) => some (c :: a, b)
    | none => if c = '/' then some ([], cs) else none

/-- The anchored pattern on a character list that has already had a single
trailing newline removed: the list must start with repositories/, end with
.bundle, the middle segment may not contain a newline (the dot
metacharacter excludes it), and the middle segment splits at its last
slash into the two groups. -/
def parseBundleChars (l : List Char) : Option (List Char × List Char) :=
  if l.take 13 = repoPathHead then
    if 7 ≤ (l.drop 13).length ∧
        (l.drop 13).drop ((l.drop 13).length - 7) = bundleTail then
      if '\n' ∈ (l.drop 13).take ((l.drop 13).length - 7) then none
      else splitAtLastSlash ((l.drop 13).take ((l.drop 13).length - 7))
    else none
  else none

/-- re.findall of the anchored pattern on one member name, returning the
two groups (namespace, repository name) when the pattern matches. -/
def parseBundlePath (s : String) : Option (String × String) :=
  (parseBundleChars (stripTrailingNewline s.toList)).map
    (fun p => (String.mk p.1, String.mk p.2))

/-- The record type built in GitlabBackup.__init__ (lines 19-21): the tar
member name, the namespace that owned the repository, and the repository
name. -/
structure GitLabRepo where
  bundle : String
  membership : String
  name : String
deriving DecidableEq, Repr

/-- GitlabBackup.__iter__ (lines 35-45): one record per member name the
pattern matches, in member order; non-matching members yield nothing. -/
def enumerateRecords (members : List String) : List GitLabRepo :=
  members.filterMap
    (fun p => (parseBundlePath p).map (fun q => ⟨p, q.1, q.2⟩))

/-- Modelled from the spec (for comparison only): the member-path shape
claimed in section 4.1 — repositories/ then a namespace (which may itself
contain slashes), a slash, a name and the extension .bundle. -/
def claimShape (p : String) : Prop :=
  ∃ ns n : String, p = "repositories/" ++ ns ++ "/" ++ n ++ ".bundle"

/-! ## Remote server model and import strategies

The Gogs API client is an external collaborator (spec section 6); it is
modelled at its interface boundary: the remote state is the set of
existing repositories, each an owner and a name, together with the set of
ensured tokens, each a token label and an owner.  repo_exists is a pure
query on that state; ensure_token inserts a token if absent; create_repo
adds a repository under the owner it is addressed to (the token owner, or
the organization passed explicitly).  Each strategy returns the new remote
state together with the ordered list of its observable actions. -/

/-- The remote server's state at the interface boundary: existing
repositories as owner-name pairs and ensured tokens as label-owner
pairs. -/
structure RemoteState where
  repos : List (String × String)
  tokens : List (String × String)
deriving DecidableEq, Repr

/-- Observable actions of one import attempt, in order of occurrence:
the already-exists warning, the importing progress message, the
ensure-token call, the create-repository call (with the owner it targets),
and the mirror push (with the owner segment of the push URL). -/
inductive ApiCall where
  | warnExists (owner name : String)
  | infoImporting (name bundle : String)
  | ensureToken (label owner : String)
  | createRepo (owner name : String)
  | push (owner name : String)
deriving DecidableEq, Repr

/-- gogs_client ensure_token at the interface boundary: reuse the token
with this label for this owner when present, create it otherwise. -/
def ensureTokenState (label owner : String) (st : RemoteState) : RemoteState :=
  if (label, owner) ∈ st.tokens then st
  else { st with tokens := (label, owner) :: st.tokens }

/-- gogs_client create_repo at the interface boundary: the repository
appears under the owner the call targets. -/
def createRepoState (owner name : String) (st : RemoteState) : RemoteState :=
  { st with repos := (owner, name) :: st.repos }

/-- GitlabBackup.importUserRepo (lines 47-73): if a repository with the
record's name exists under the owner equal to the record's namespace, warn
and return; otherwise ensure a token labelled gitlab2gogs for the
namespace, create the repository under the namespace, and mirror-push to
the namespace/name URL. -/
def importUserRepo (st : RemoteState) (r : GitLabRepo) :
    RemoteState × List ApiCall :=
  if (r.membership, r.name) ∈ st.repos then
    (st, [.warnExists r.membership r.name])
  else
    (createRepoState r.membership r.name
       (ensureTokenState "gitlab2gogs" r.membership st),
     [.infoImporting r.name r.bundle,
      .ensureToken "gitlab2gogs" r.membership,
      .createRepo r.membership r.name,
      .push r.membership r.name])

/-- GitlabBackup.importGroupRepo (lines 75-102): the existence check asks
for the record's name under the administrative username
(self.gogsauth.username, line 77); when absent, a token labelled
gitlab2gogs is ensured for the administrative username, the repository is
created with the organization derived from the namespace by
organizationNameFromGroupName (line 96), and the push URL owner segment is
that derived organization (line 101). -/
def importGroupRepo (admin : String) (st : RemoteState) (r : GitLabRepo) :
    RemoteState × List ApiCall :=
  if (admin, r.name) ∈ st.repos then
    (st, [.warnExists admin r.name])
  else
    (createRepoState (organizationNameFromGroupName r.membership) r.name
       (ensureTokenState "gitlab2gogs" admin st),
     [.infoImporting r.name r.bundle,
      .ensureToken "gitlab2gogs" admin,
      .createRepo (organizationNameFromGroupName r.membership) r.name,
      .push (organizationNameFromGroupName r.membership) r.name])

/-! ## Import driver

GitlabBackup.importRepos (lines 136-138) is a plain for-loop calling
importRepo on each record; it contains no exception handler, and neither
importRepo (whose try block has only a finally clause, lines 146-159) nor
the strategies catch anything, so an exception raised while importing one
record propagates out of the loop.  Python exception propagation is
embedded as the Except monad: the per-record behaviour is a step function
returning ok or an error, and the loop returns the records actually
processed together with the first error, stopping there. -/

/-- The exceptions one record's import can raise: a clone failure
from the bundle, or a creation/push failure after the existence check. -/
inductive RecordError where
  | cloneError
  | importError
deriving DecidableEq, Repr

/-- GitlabBackup.importRepos (lines 136-138) with per-record behaviour
given by step: process records in order; a record whose step raises ends
the loop with that error, because nothing catches it.  Returns the records
processed (the failing one included) and the propagated error, if any. -/
def importRepos (step : GitLabRepo → Except RecordError Unit) :
    List GitLabRepo → List GitLabRepo × Option RecordError
  | [] => ([], none)
  | r :: rs =>
    match step r with
    | .ok _ =>
      match importRepos step rs with
      | (p, e) => (r :: p, e)
    | .error e => ([r], some e)

/-- A concrete per-record behaviour: every record named bad fails its
clone, every other record succeeds. -/
def stepFailsOnBad : GitLabRepo → Except RecordError Unit :=
  fun r => if r.name = "bad" then Except.error .cloneError else Except.ok ()

/-! ## Resource scoping of one record's import

GitlabBackup.importRepo (lines 140-159) wraps the whole attempt in a
tempfile.TemporaryDirectory context and a try block whose finally clause
runs shutil.rmtree on the clone directory with the remove_readonly error
handler (lines 141-143), which clears the read-only attribute with
os.chmod(path, stat.S_IWRITE) and retries the failed deletion.  Its
filesystem behaviour is embedded as a trace of events over every possible
outcome of the three fallible stages (tar extract, clone from bundle, and
the import strategy).  The TemporaryDirectory context manager is an external
collaborator: its documented contract, removal of the directory and all
its contents when the context exits, is one event.  Python semantics
embedded: a finally clause runs on the normal and on every exceptional
exit of its try block, and a context manager's exit runs on the normal and
on every exceptional exit of its body. -/

/-- Filesystem events of one record's import, in order of occurrence. -/
inductive FsEvent where
  | extractBundle
  | cloneCreated
  | chmodWritable (p : String)
  | removePath (p : String)
  | removeTempTree
deriving DecidableEq, Repr

/-- One possible execution of the fallible parts of importRepo: whether
the tar extract succeeds, whether the clone succeeds, whether the clone
directory is present when the finally clause runs (a failed clone may
leave none behind), whether the import strategy raises, and the files the
clone left in the clone directory, split into read-only ones (the
version-control tool marks its object files read-only) and writable
ones. -/
structure RecordRun where
  extractOk : Bool
  cloneOk : Bool
  cloneDirPresent : Bool
  importRaises : Bool
  roFiles : List String
  rwFiles : List String

/-- shutil.rmtree on the clone directory with the remove_readonly handler
(lines 141-143 and 159): a read-only entry fails its first deletion, the
handler clears the attribute and deletes it; a writable entry is deleted
directly; last the directory itself.  When the directory is absent the
walk itself fails and the handler's own chmod call raises, so no deletion
event occurs. -/
def rmtreeForce (dirPresent : Bool) (ro rw : List String) : List FsEvent :=
  if dirPresent then
    (ro.flatMap fun p => [.chmodWritable p, .removePath p])
      ++ rw.map .removePath ++ [.removePath "clone"]
  else
    [.chmodWritable "clone"]

/-- The filesystem trace of GitlabBackup.importRepo (lines 140-159) on one
record for a given execution: the body's events up to its first failure,
then the finally clause's rmtree of the clone directory, then the
TemporaryDirectory cleanup, which runs on every exit of the context. -/
def importRepoFs (b : RecordRun) : List FsEvent :=
  (if b.extractOk then
      .extractBundle :: (if b.cloneOk then [.cloneCreated] else [])
    else [])
    ++ rmtreeForce b.cloneDirPresent b.roFiles b.rwFiles
    ++ [.removeTempTree]

/-! ## Helper lemmas -/

theorem string_mk_toList (s : String) : String.mk s.toList = s := rfl

theorem string_toList_mk (l : List Char) : (String.mk l).toList = l := rfl

theorem sanitizeChar_idem (c : Char) : sanitizeChar (sanitizeChar c) = sanitizeChar c := by
  by_cases h1 : allowedChar c = true
  · by_cases h2 : (c == '/') = true
    · have h : sanitizeChar c = '.' := by unfold sanitizeChar; simp [h1, h2]
      rw [h]; decide
    · have h : sanitizeChar c = c := by unfold sanitizeChar; simp [h1, h2]
      rw [h]; exact h
  · have h : sanitizeChar c = '_' := by unfold sanitizeChar; simp [h1]
    rw [h]; decide

theorem sanitizeChar_ne_slash (c : Char) : (sanitizeChar c == '/') = false := by
  by_cases h1 : allowedChar c = true
  · by_cases h2 : (c == '/') = true
    · have h : sanitizeChar c = '.' := by unfold sanitizeChar; simp [h1, h2]
      rw [h]; decide
    · have h : sanitizeChar c = c := by unfold sanitizeChar; simp [h1, h2]
      rw [h]; simpa using h2
  · have h : sanitizeChar c = '_' := by unfold sanitizeChar; simp [h1]
    rw [h]; decide

theorem map_sanitizeChar_idem (l : List Char) :
    (l.map sanitizeChar).map sanitizeChar = l.map sanitizeChar := by
  induction l with
  | nil => rfl
  | cons c cs ih => simp [ih, sanitizeChar_idem]

theorem sanitize_idem (s : String) : sanitize (sanitize s) = sanitize s := by
  unfold sanitize
  rw [string_toList_mk, map_sanitizeChar_idem]

theorem pyAlnumChar_of_ascii (c : Char) (h : asciiAlnumChar c = true) :
    pyAlnumChar c = true := by
  unfold pyAlnumChar
  rw [h, Bool.true_or]

theorem contains_eq_false_of_not_mem {l : List Char} {a : Char} (h : a ∉ l) :
    l.contains a = false := by
  simp [List.contains, List.elem_eq_mem, h]

/-! ## Claims about the namespace classifier -/

/-- The string of the single character U+00E9 (é), a Unicode letter for
which Python str.isalnum is true although it is not an ASCII
alphanumeric. -/
def eAcute : String := String.mk [Char.ofNat 0xE9]

/-- Claim C3, counterexample: on the one-character string é the code
takes the identity branch (Python isalnum is Unicode-aware), while the
claimed rule demands the substitution branch, which would produce an
underscore. -/
theorem orgName_unicode_cex :
    (organizationNameFromGroupName eAcute == claimOrgId eAcute) = false ∧
    organizationNameFromGroupName eAcute = eAcute ∧
    claimOrgId eAcute = "_" := by decide

/-- Claim C3 (amended): organizationNameFromGroupName branches on
Python's Unicode-aware isalnum, so a string of non-ASCII alphanumerics is
returned unchanged; on strings of ASCII characters the claimed
description holds exactly — identity when composed solely of ASCII
alphanumerics, otherwise every character outside the allowed class
becomes an underscore and every slash then becomes a dot. -/
theorem orgName_ascii_agreement (s : String)
    (h : ∀ c ∈ s.toList, c.toNat < 128) :
    organizationNameFromGroupName s = claimOrgId s := by
  unfold organizationNameFromGroupName claimOrgId pyIsAlnum
  by_cases hall : s.toList.all asciiAlnumChar = true
  · rw [if_pos hall]
    by_cases hnil : s.toList.isEmpty = true
    · have hnil' : s.toList = [] := by simpa using hnil
      rw [if_neg (by rw [hnil']; simp)]
      unfold sanitize
      rw [hnil']
      conv_rhs => rw [← string_mk_toList s, hnil']
      rfl
    · have hal : s.toList.all pyAlnumChar = true := by
        rw [List.all_eq_true] at hall ⊢
        exact fun c hc => pyAlnumChar_of_ascii c (hall c hc)
      have hne : s.toList.isEmpty = false := by simpa using hnil
      rw [if_pos (by rw [hne, hal]; rfl)]
  · rw [if_neg hall]
    have hex : s.toList.all pyAlnumChar = false := by
      rw [List.all_eq_false]
      have : ∃ c ∈ s.toList, ¬ asciiAlnumChar c = true := by
        rw [← List.all_eq_false]
        cases hb : s.toList.all asciiAlnumChar
        · rfl
        · exact absurd hb hall
      obtain ⟨c, hc, hcf⟩ := this
      refine ⟨c, hc, ?_⟩
      have h1 : asciiAlnumChar c = false := by simpa using hcf
      have h2 : (c.toNat == 0xE9) = false := by
        have hlt := h c hc
        simp only [beq_eq_false_iff_ne]
        omega
      simp [pyAlnumChar, h1, h2]
    rw [if_neg (by rw [hex]; simp)]

/-- Claim C3 witness: on the all-ASCII string eng/sub the code and the
claimed contract agree. -/
theorem orgName_ascii_agreement_witness :
    organizationNameFromGroupName "eng/sub" = claimOrgId "eng/sub" :=
  orgName_ascii_agreement "eng/sub" (by decide)

/-- Claim C6: organizationNameFromGroupName is idempotent — applying it
to its own output returns that output unchanged, for every input
string. -/
theorem orgName_idempotent (s : String) :
    organizationNameFromGroupName (organizationNameFromGroupName s) =
      organizationNameFromGroupName s := by
  by_cases h1 : pyIsAlnum s = true
  · have e : organizationNameFromGroupName s = s := by
      unfold organizationNameFromGroupName; rw [if_pos h1]
    rw [e]; exact e
  · have e : organizationNameFromGroupName s = sanitize s := by
      unfold organizationNameFromGroupName; rw [if_neg h1]
    rw [e]
    by_cases h2 : pyIsAlnum (sanitize s) = true
    · unfold organizationNameFromGroupName; rw [if_pos h2]
    · unfold organizationNameFromGroupName; rw [if_neg h2]
      exact sanitize_idem s

/-- Claim C10: the output of organizationNameFromGroupName never contains
a slash — a string passing the isalnum test cannot contain one, and the
substitution branch turns every slash into a dot. -/
theorem orgName_no_slash (s : String) :
    (organizationNameFromGroupName s).toList.contains '/' = false := by
  unfold organizationNameFromGroupName
  by_cases h1 : pyIsAlnum s = true
  · rw [if_pos h1]
    refine contains_eq_false_of_not_mem ?_
    intro hmem
    unfold pyIsAlnum at h1
    have hall : s.toList.all pyAlnumChar = true := by
      cases hb : s.toList.all pyAlnumChar
      · rw [hb, Bool.and_false] at h1; cases h1
      · rfl
    rw [List.all_eq_true] at hall
    have := hall '/' hmem
    simp [pyAlnumChar, asciiAlnumChar] at this
  · rw [if_neg h1]
    refine contains_eq_false_of_not_mem ?_
    intro hmem
    unfold sanitize at hmem
    rw [string_toList_mk, List.mem_map] at hmem
    obtain ⟨a, _, ha⟩ := hmem
    have := sanitizeChar_ne_slash a
    rw [beq_eq_false_iff_ne] at this
    exact this ha

/-- Claim C7: isUserRepo is true exactly when the lower-cased namespace
belongs to the lower-cased username list, and its result depends on the
namespace only through its lower-casing, so it is invariant under letter
case of the namespace argument. -/
theorem isUserRepo_lowercase_membership :
    (∀ us ns, isUserRepo (storedUsernames us) ns = true ↔
        pyLower ns ∈ us.map pyLower) ∧
    (∀ us ns1 ns2, pyLower ns1 = pyLower ns2 →
        isUserRepo (storedUsernames us) ns1 = isUserRepo (storedUsernames us) ns2) := by
  constructor
  · intro us ns
    unfold isUserRepo storedUsernames
    simp [List.contains, List.elem_eq_mem]
  · intro us ns1 ns2 h
    unfold isUserRepo
    rw [h]

/-- Claim C7 witness: with the stored username Alice, the namespace aLiCe
is recognized and the namespaces ALICE and alice agree. -/
theorem isUserRepo_lowercase_membership_witness :
    isUserRepo (storedUsernames ["Alice"]) "aLiCe" = true ∧
    isUserRepo (storedUsernames ["Alice"]) "ALICE" =
      isUserRepo (storedUsernames ["Alice"]) "alice" :=
  ⟨(isUserRepo_lowercase_membership.1 ["Alice"] "aLiCe").mpr (by decide),
   isUserRepo_lowercase_membership.2 ["Alice"] "ALICE" "alice" (by decide)⟩

/-! ## Claims about the import run -/

/-- Claim C1, counterexample: with a record sequence whose first record
fails its clone, the run stops there — the second record is not processed,
because importRepos has no exception handler.  The processed list contains
only the failing record and the error propagates. -/
theorem importRepos_aborts_cex :
    importRepos stepFailsOnBad
        [⟨"repositories/g/bad.bundle", "g", "bad"⟩,
         ⟨"repositories/g/good.bundle", "g", "good"⟩] =
      ([⟨"repositories/g/bad.bundle", "g", "bad"⟩], some RecordError.cloneError) ∧
    ((importRepos stepFailsOnBad
        [⟨"repositories/g/bad.bundle", "g", "bad"⟩,
         ⟨"repositories/g/good.bundle", "g", "good"⟩]).1.contains
      ⟨"repositories/g/good.bundle", "g", "good"⟩) = false := by
  constructor
  · rfl
  · rfl

/-- Claim C1 (amended): a per-record failure is not caught anywhere in the
run — importRepos processes records in discovery order up to and including
the first record whose import raises, the error propagates out of the
loop, and the records after the failing one are not processed. -/
theorem importRepos_stops_at_first_error
    (step : GitLabRepo → Except RecordError Unit)
    (rs1 : List GitLabRepo) (r : GitLabRepo) (rs2 : List GitLabRepo)
    (e : RecordError)
    (h1 : ∀ x ∈ rs1, step x = Except.ok ())
    (h2 : step r = Except.error e) :
    importRepos step (rs1 ++ r :: rs2) = (rs1 ++ [r], some e) := by
  induction rs1 with
  | nil => simp [importRepos, h2]
  | cons a as ih =>
    have ha := h1 a (by simp)
    have ih' := ih (fun x hx => h1 x (by simp [hx]))
    simp [importRepos, ha, ih']

/-- Claim C1 witness: the amended statement applied to the concrete
two-record sequence whose first record fails. -/
theorem importRepos_stops_at_first_error_witness :
    importRepos stepFailsOnBad
        ([] ++ ⟨"repositories/g/bad.bundle", "g", "bad"⟩ ::
          [⟨"repositories/g/good.bundle", "g", "good"⟩]) =
      ([] ++ [⟨"repositories/g/bad.bundle", "g", "bad"⟩],
       some RecordError.cloneError) :=
  importRepos_stops_at_first_error stepFailsOnBad []
    ⟨"repositories/g/bad.bundle", "g", "bad"⟩
    [⟨"repositories/g/good.bundle", "g", "good"⟩]
    RecordError.cloneError (by simp) rfl

/-- Claim C2, counterexample: a group record whose repository does exist
under the derived organization identifier is not skipped — the existence
check asks under the administrative username instead, so the strategy goes
on to create the repository.  Namespace grp is alphanumeric, so its
derived organization identifier is grp itself. -/
theorem importGroupRepo_checks_admin_cex :
    (organizationNameFromGroupName "grp", "proj") ∈
      (RemoteState.mk [("grp", "proj")] []).repos ∧
    (ApiCall.createRepo "grp" "proj" ∈
      (importGroupRepo "admin" (RemoteState.mk [("grp", "proj")] [])
        ⟨"repositories/grp/proj.bundle", "grp", "proj"⟩).2) ∧
    ((importGroupRepo "admin" (RemoteState.mk [("grp", "proj")] [])
        ⟨"repositories/grp/proj.bundle", "grp", "proj"⟩).1 ==
      RemoteState.mk [("grp", "proj")] []) = false := by
  refine ⟨by decide, by decide, by decide⟩

/-- Claim C2 (amended): the group-import strategy's existence check
targets the administrative username, not the derived organization
identifier; the import is skipped if and only if a repository with the
record's name exists under the administrative username.  Only the
repository creation and the push target the organization identifier
derived from the record's namespace. -/
theorem importGroupRepo_targets
    (admin : String) (st : RemoteState) (r : GitLabRepo) :
    ((admin, r.name) ∈ st.repos →
        importGroupRepo admin st r = (st, [ApiCall.warnExists admin r.name])) ∧
    ((admin, r.name) ∉ st.repos →
        importGroupRepo admin st r =
          (createRepoState (organizationNameFromGroupName r.membership) r.name
             (ensureTokenState "gitlab2gogs" admin st),
           [ApiCall.infoImporting r.name r.bundle,
            ApiCall.ensureToken "gitlab2gogs" admin,
            ApiCall.createRepo (organizationNameFromGroupName r.membership) r.name,
            ApiCall.push (organizationNameFromGroupName r.membership) r.name])) := by
  constructor
  · intro h
    unfold importGroupRepo
    rw [if_pos h]
  · intro h
    unfold importGroupRepo
    rw [if_neg h]

/-- Claim C2 witness: the amended statement applied to a concrete state
holding the repository under the administrative username, which is
skipped. -/
theorem importGroupRepo_targets_witness :
    importGroupRepo "admin" (RemoteState.mk [("admin", "proj")] [])
        ⟨"repositories/grp/proj.bundle", "grp", "proj"⟩ =
      (RemoteState.mk [("admin", "proj")] [],
       [ApiCall.warnExists "admin" "proj"]) :=
  (importGroupRepo_targets "admin" (RemoteState.mk [("admin", "proj")] [])
      ⟨"repositories/grp/proj.bundle", "grp", "proj"⟩).1 (by decide)

/-- Claim C4, counterexample: a group record whose destination repository
(under the derived organization identifier team_one) already exists is
nevertheless imported — the skip is keyed on the administrative username,
so the strategy ensures a token, creates the repository and pushes, and
the remote state changes. -/
theorem skip_is_noop_cex :
    (organizationNameFromGroupName "team one", "svc") ∈
      (RemoteState.mk [("team_one", "svc")] []).repos ∧
    (ApiCall.push "team_one" "svc" ∈
      (importGroupRepo "root" (RemoteState.mk [("team_one", "svc")] [])
        ⟨"repositories/team one/svc.bundle", "team one", "svc"⟩).2) ∧
    (ApiCall.ensureToken "gitlab2gogs" "root" ∈
      (importGroupRepo "root" (RemoteState.mk [("team_one", "svc")] [])
        ⟨"repositories/team one/svc.bundle", "team one", "svc"⟩).2) ∧
    ((importGroupRepo "root" (RemoteState.mk [("team_one", "svc")] [])
        ⟨"repositories/team one/svc.bundle", "team one", "svc"⟩).1 ==
      RemoteState.mk [("team_one", "svc")] []) = false := by
  refine ⟨by decide, by decide, by decide, by decide⟩

/-- Claim C4 (amended): an import whose existence check succeeds is a
pure skip — one warning, no token-ensure, no creation, no push, remote
state unchanged.  For a user record the check is against the record's
namespace, which is the destination owner; for a group record it is
against the administrative username, not the destination organization. -/
theorem skip_is_noop (admin : String) (st : RemoteState) (r : GitLabRepo) :
    ((r.membership, r.name) ∈ st.repos →
        importUserRepo st r = (st, [ApiCall.warnExists r.membership r.name])) ∧
    ((admin, r.name) ∈ st.repos →
        importGroupRepo admin st r = (st, [ApiCall.warnExists admin r.name])) := by
  constructor
  · intro h
    unfold importUserRepo
    rw [if_pos h]
  · intro h
    unfold importGroupRepo
    rw [if_pos h]

/-- Claim C4 witness: a user record whose destination alice/proj exists is
skipped with no state change, applied at a concrete state. -/
theorem skip_is_noop_witness :
    importUserRepo (RemoteState.mk [("alice", "proj")] [])
        ⟨"repositories/alice/proj.bundle", "alice", "proj"⟩ =
      (RemoteState.mk [("alice", "proj")] [],
       [ApiCall.warnExists "alice" "proj"]) :=
  (skip_is_noop "admin" (RemoteState.mk [("alice", "proj")] [])
      ⟨"repositories/alice/proj.bundle", "alice", "proj"⟩).1 (by decide)

theorem sublist_flatMap_of_mem {α β : Type} (f : α → List β) {l : List α}
    {a : α} (h : a ∈ l) : List.Sublist (f a) (l.flatMap f) := by
  induction l with
  | nil => cases h
  | cons x xs ih =>
    rcases List.mem_cons.mp h with h1 | h2
    · subst h1
      rw [List.flatMap_cons]
      exact List.sublist_append_left _ _
    · rw [List.flatMap_cons]
      exact (ih h2).trans (List.sublist_append_right _ _)

/-- Claim C8: on every exit path of one record's import — success, skip,
extract or clone failure, import failure, clone directory present or not —
the trace ends with the removal of the scoped temporary directory and its
contents, and every read-only file the version-control tool left in the
clone directory has its read-only attribute cleared by a chmod event
before its removal event. -/
theorem importRepo_cleanup (b : RecordRun) :
    (importRepoFs b).getLast? = some FsEvent.removeTempTree ∧
    (b.cloneDirPresent = true → ∀ p ∈ b.roFiles,
      List.Sublist [FsEvent.chmodWritable p, FsEvent.removePath p]
        (importRepoFs b)) := by
  constructor
  · unfold importRepoFs
    exact List.getLast?_concat _
  · intro hdir p hp
    unfold importRepoFs rmtreeForce
    rw [hdir]
    simp only [if_pos]
    have h1 : List.Sublist [FsEvent.chmodWritable p, FsEvent.removePath p]
        (b.roFiles.flatMap fun q => [FsEvent.chmodWritable q, FsEvent.removePath q]) :=
      sublist_flatMap_of_mem
        (fun q => [FsEvent.chmodWritable q, FsEvent.removePath q]) hp
    have h2 := h1.trans
      (List.sublist_append_left _ (b.rwFiles.map FsEvent.removePath))
    have h3 := h2.trans
      (List.sublist_append_left _ [FsEvent.removePath "clone"])
    have h4 := h3.trans (List.sublist_append_right
      (if b.extractOk then
          FsEvent.extractBundle ::
            (if b.cloneOk then [FsEvent.cloneCreated] else [])
        else []) _)
    exact h4.trans (List.sublist_append_left _ [FsEvent.removeTempTree])

/-- Claim C8 witness: the cleanup statement applied to the concrete run
where everything succeeds and the clone left one read-only and one
writable file. -/
theorem importRepo_cleanup_witness :
    (importRepoFs (RecordRun.mk true true true false ["obj"] ["cfg"])).getLast? =
        some FsEvent.removeTempTree ∧
    List.Sublist [FsEvent.chmodWritable "obj", FsEvent.removePath "obj"]
      (importRepoFs (RecordRun.mk true true true false ["obj"] ["cfg"])) :=
  ⟨(importRepo_cleanup (RecordRun.mk true true true false ["obj"] ["cfg"])).1,
   (importRepo_cleanup (RecordRun.mk true true true false ["obj"] ["cfg"])).2
     rfl "obj" (by decide)⟩

/-! ## Claims about the archive index -/

theorem string_toList_append (s t : String) :
    (s ++ t).toList = s.toList ++ t.toList := rfl

theorem string_eq_iff_toList (s t : String) : s = t ↔ s.toList = t.toList := by
  constructor
  · intro h; rw [h]
  · intro h
    cases s; cases t
    exact congrArg String.mk h

theorem contains_eq_false_iff_not_mem {l : List Char} {a : Char} :
    l.contains a = false ↔ a ∉ l := by
  simp [List.contains, List.elem_eq_mem]

theorem toList_shape (ns n : String) :
    ("repositories/" ++ ns ++ "/" ++ n ++ ".bundle").toList =
      repoPathHead ++ ns.toList ++ '/' :: n.toList ++ bundleTail := by
  unfold repoPathHead bundleTail
  rw [string_toList_append, string_toList_append, string_toList_append,
    string_toList_append]
  have h1 : ("/" : String).toList = ['/'] := rfl
  rw [h1]
  simp only [List.append_assoc, List.singleton_append, List.cons_append,
    List.nil_append]

theorem splitAtLastSlash_eq_none {l : List Char} (h : '/' ∉ l) :
    splitAtLastSlash l = none := by
  induction l with
  | nil => rfl
  | cons c cs ih =>
    have hc : ¬ c = '/' := fun e => h (by rw [e]; exact List.mem_cons_self '/' cs)
    have hcs : '/' ∉ cs := fun m => h (List.mem_cons_of_mem c m)
    simp only [splitAtLastSlash, ih hcs]
    rw [if_neg hc]

theorem splitAtLastSlash_none_not_mem {l : List Char}
    (h : splitAtLastSlash l = none) : '/' ∉ l := by
  induction l with
  | nil => simp
  | cons c cs ih =>
    intro hm
    simp only [splitAtLastSlash] at h
    cases hs : splitAtLastSlash cs with
    | some q =>
      obtain ⟨a, b⟩ := q
      rw [hs] at h
      cases h
    | none =>
      rw [hs] at h
      by_cases hc : c = '/'
      · rw [if_pos hc] at h; cases h
      · rcases List.mem_cons.mp hm with h1 | h2
        · exact hc h1.symm
        · exact ih hs h2

theorem splitAtLastSlash_some_eq {l a b : List Char}
    (h : splitAtLastSlash l = some (a, b)) :
    l = a ++ '/' :: b ∧ '/' ∉ b := by
  induction l generalizing a b with
  | nil => cases h
  | cons c cs ih =>
    simp only [splitAtLastSlash] at h
    cases hs : splitAtLastSlash cs with
    | some q =>
      obtain ⟨a', b'⟩ := q
      rw [hs] at h
      rw [Option.some_inj, Prod.mk.injEq] at h
      obtain ⟨h1, h2⟩ := h
      subst h1; subst h2
      obtain ⟨hcs, hb⟩ := ih hs
      constructor
      · rw [hcs]; rfl
      · exact hb
    | none =>
      rw [hs] at h
      by_cases hc : c = '/'
      · rw [if_pos hc] at h
        rw [Option.some_inj, Prod.mk.injEq] at h
        obtain ⟨h1, h2⟩ := h
        subst h1; subst h2
        subst hc
        exact ⟨rfl, splitAtLastSlash_none_not_mem hs⟩
      · rw [if_neg hc] at h; cases h

theorem splitAtLastSlash_append {b : List Char} (a : List Char) (hb : '/' ∉ b) :
    splitAtLastSlash (a ++ '/' :: b) = some (a, b) := by
  induction a with
  | nil =>
    simp only [List.nil_append, splitAtLastSlash]
    rw [splitAtLastSlash_eq_none hb]
    simp
  | cons c cs ih =>
    simp only [List.cons_append, splitAtLastSlash]
    have ih' : splitAtLastSlash (cs.append ('/' :: b)) = some (cs, b) := ih
    rw [ih']

theorem strip_of_bundle_shape (x : List Char) :
    stripTrailingNewline (x ++ bundleTail) = x ++ bundleTail := by
  unfold stripTrailingNewline
  have h : (x ++ bundleTail).getLast? = some 'e' := by
    rw [List.getLast?_append]; rfl
  rw [if_neg (by simp [h])]

theorem strip_concat_newline (x : List Char) :
    stripTrailingNewline (x ++ ['\n']) = x := by
  unfold stripTrailingNewline
  rw [if_pos (List.getLast?_concat x)]
  exact List.dropLast_concat

theorem eq_strip_or (l : List Char) :
    l = stripTrailingNewline l ∨ l = stripTrailingNewline l ++ ['\n'] := by
  unfold stripTrailingNewline
  by_cases h : l.getLast? = some '\n'
  · rw [if_pos h]
    right
    exact (List.dropLast_append_getLast? '\n' (Option.mem_def.mpr h)).symm
  · rw [if_neg h]; left; rfl

theorem parseBundleChars_iff (l a b : List Char) :
    parseBundleChars l = some (a, b) ↔
      (l = repoPathHead ++ a ++ '/' :: b ++ bundleTail ∧
       '\n' ∉ a ∧ '\n' ∉ b ∧ '/' ∉ b) := by
  constructor
  · intro h
    unfold parseBundleChars at h
    by_cases h1 : l.take 13 = repoPathHead
    case neg => rw [if_neg h1] at h; cases h
    rw [if_pos h1] at h
    by_cases h2 : 7 ≤ (l.drop 13).length ∧
        (l.drop 13).drop ((l.drop 13).length - 7) = bundleTail
    case neg => rw [if_neg h2] at h; cases h
    rw [if_pos h2] at h
    by_cases h3 : '\n' ∈ (l.drop 13).take ((l.drop 13).length - 7)
    case pos => rw [if_pos h3] at h; cases h
    rw [if_neg h3] at h
    obtain ⟨hmid, hslash⟩ := splitAtLastSlash_some_eq h
    have hl : l = repoPathHead ++
        ((l.drop 13).take ((l.drop 13).length - 7) ++ bundleTail) := by
      conv_lhs => rw [← List.take_append_drop 13 l]
      rw [h1, ← h2.2, List.take_append_drop]
    rw [hmid] at hl h3
    refine ⟨?_, ?_, ?_, hslash⟩
    · rw [hl]
      simp [List.append_assoc]
    · intro hm
      exact h3 (List.mem_append.mpr (Or.inl hm))
    · intro hm
      exact h3 (List.mem_append.mpr (Or.inr (List.mem_cons_of_mem '/' hm)))
  · rintro ⟨hl, hna, hnb, hsb⟩
    have e0 : l = repoPathHead ++ ((a ++ '/' :: b) ++ bundleTail) := by
      rw [hl]; simp [List.append_assoc]
    have h7 : bundleTail.length = 7 := rfl
    have h13 : repoPathHead.length = 13 := rfl
    have hdrop : l.drop 13 = (a ++ '/' :: b) ++ bundleTail := by
      rw [e0]; exact List.drop_left' h13
    have htake : l.take 13 = repoPathHead := by
      rw [e0]; exact List.take_left' h13
    have hlen : ((a ++ '/' :: b) ++ bundleTail).length - 7 = (a ++ '/' :: b).length := by
      rw [List.length_append, h7]
      omega
    have hmid : (l.drop 13).take ((l.drop 13).length - 7) = a ++ '/' :: b := by
      rw [hdrop, hlen]
      exact List.take_left _ _
    have hsuf : (l.drop 13).drop ((l.drop 13).length - 7) = bundleTail := by
      rw [hdrop, hlen]
      exact List.drop_left _ _
    have hge : 7 ≤ (l.drop 13).length := by
      rw [hdrop, List.length_append, h7]
      omega
    have hnomid : '\n' ∉ (l.drop 13).take ((l.drop 13).length - 7) := by
      rw [hmid]
      intro hm
      rcases List.mem_append.mp hm with hm1 | hm2
      · exact hna hm1
      · rcases List.mem_cons.mp hm2 with hm3 | hm4
        · cases hm3
        · exact hnb hm4
    unfold parseBundleChars
    rw [if_pos htake, if_pos ⟨hge, hsuf⟩, if_neg hnomid, hmid]
    exact splitAtLastSlash_append a hsb

theorem parseBundlePath_iff (p ns n : String) :
    parseBundlePath p = some (ns, n) ↔
      ('\n' ∉ ns.toList ∧ '\n' ∉ n.toList ∧ '/' ∉ n.toList ∧
       (p = "repositories/" ++ ns ++ "/" ++ n ++ ".bundle" ∨
        p = "repositories/" ++ ns ++ "/" ++ n ++ ".bundle" ++ "\n")) := by
  unfold parseBundlePath
  constructor
  · intro h
    rw [Option.map_eq_some'] at h
    obtain ⟨q, hq, hmap⟩ := h
    obtain ⟨qa, qb⟩ := q
    dsimp only at hmap
    rw [Prod.mk.injEq] at hmap
    obtain ⟨hns, hn⟩ := hmap
    subst hns; subst hn
    obtain ⟨hl, hna, hnb, hsb⟩ := (parseBundleChars_iff _ qa qb).mp hq
    refine ⟨hna, hnb, hsb, ?_⟩
    rcases eq_strip_or p.toList with hp | hp
    · left
      apply (string_eq_iff_toList _ _).mpr
      rw [toList_shape]
      show p.toList = repoPathHead ++ qa ++ '/' :: qb ++ bundleTail
      rw [hp]; exact hl
    · right
      apply (string_eq_iff_toList _ _).mpr
      rw [string_toList_append, toList_shape]
      show p.toList = (repoPathHead ++ qa ++ '/' :: qb ++ bundleTail) ++ ['\n']
      rw [hp, hl]
  · rintro ⟨hna, hnb, hsb, hp | hp⟩
    · have hl : p.toList = repoPathHead ++ ns.toList ++ '/' :: n.toList ++ bundleTail := by
        rw [hp, toList_shape]
      rw [hl, strip_of_bundle_shape]
      rw [(parseBundleChars_iff _ ns.toList n.toList).mpr ⟨rfl, hna, hnb, hsb⟩]
      rfl
    · have hl : p.toList =
          (repoPathHead ++ ns.toList ++ '/' :: n.toList ++ bundleTail) ++ ['\n'] := by
        rw [hp, string_toList_append, toList_shape]
        rfl
      rw [hl, strip_concat_newline]
      rw [(parseBundleChars_iff _ ns.toList n.toList).mpr ⟨rfl, hna, hnb, hsb⟩]
      rfl

/-- Claim C5, counterexample: the member path repositories/a/b.bundle
followed by a newline does not have the claimed shape (it does not end in
.bundle), yet the enumeration yields a record for it, because the dollar
anchor of a Python regex also matches just before one trailing newline;
conversely the path with a newline inside the namespace segment has the
claimed shape, yet yields no record, because the dot metacharacter never
matches a newline. -/
theorem bundle_pattern_cex :
    parseBundlePath "repositories/a/b.bundle\n" = some ("a", "b") ∧
    ¬ claimShape "repositories/a/b.bundle\n" ∧
    claimShape "repositories/a\nb/c.bundle" ∧
    parseBundlePath "repositories/a\nb/c.bundle" = none := by
  refine ⟨by decide, ?_, ⟨"a\nb", "c", by decide⟩, by decide⟩
  rintro ⟨ns, n, hp⟩
  have h2 : (("repositories/a/b.bundle\n" : String).toList).getLast? =
      (("repositories/" ++ ns ++ "/" ++ n ++ ".bundle").toList).getLast? := by
    rw [hp]
  rw [toList_shape, List.getLast?_append] at h2
  have hl : (("repositories/a/b.bundle\n" : String).toList).getLast? =
      some '\n' := by decide
  have hr : bundleTail.getLast? = some 'e' := by decide
  rw [hl, hr] at h2
  exact absurd (Option.some.inj h2) (by decide)

/-- Claim C5 (amended): the enumeration yields exactly one record per
matching member, and a member path yields the record with namespace ns and
name n exactly when it is repositories/ then ns, a slash, n and .bundle —
possibly followed by one trailing newline — where ns and n contain no
newline (the namespace may contain further slashes, the name may not, the
split being at the last slash). -/
theorem bundle_pattern_characterization (p ns n : String) :
    (enumerateRecords [p] = [⟨p, ns, n⟩] ↔ parseBundlePath p = some (ns, n)) ∧
    (parseBundlePath p = some (ns, n) ↔
      ('\n' ∉ ns.toList ∧ '\n' ∉ n.toList ∧ '/' ∉ n.toList ∧
       (p = "repositories/" ++ ns ++ "/" ++ n ++ ".bundle" ∨
        p = "repositories/" ++ ns ++ "/" ++ n ++ ".bundle" ++ "\n"))) := by
  refine ⟨?_, parseBundlePath_iff p ns n⟩
  cases hq : parseBundlePath p with
  | none => simp [enumerateRecords, hq]
  | some q =>
    obtain ⟨qa, qb⟩ := q
    simp [enumerateRecords, hq, GitLabRepo.mk.injEq]

/-- Claim C5 witness: the amended characterization applied to the member
path of scenario C of the specification, whose namespace spans two
segments. -/
theorem bundle_pattern_characterization_witness :
    parseBundlePath "repositories/eng/sub/api.bundle" = some ("eng/sub", "api") :=
  ((bundle_pattern_characterization "repositories/eng/sub/api.bundle"
      "eng/sub" "api").2).mpr
    ⟨by decide, by decide, by decide, Or.inl (by decide)⟩

/-- Claim C9: whenever the enumeration yields a record, the record's name
contains no slash — the greedy first group puts the split at the last
slash of the middle segment, so every interior slash belongs to the
namespace. -/
theorem bundle_name_no_slash (p ns n : String)
    (h : parseBundlePath p = some (ns, n)) :
    n.toList.contains '/' = false := by
  obtain ⟨-, -, hs, -⟩ := (parseBundlePath_iff p ns n).mp h
  exact contains_eq_false_of_not_mem hs

/-- Claim C9 witness: on a bundle path with two interior slashes the
yielded name is the last segment and has no slash. -/
theorem bundle_name_no_slash_witness :
    parseBundlePath "repositories/a/b/c.bundle" = some ("a/b", "c") ∧
    ("c" : String).toList.contains '/' = false :=
  ⟨by decide,
   bundle_name_no_slash "repositories/a/b/c.bundle" "a/b" "c" (by decide)⟩

end Gitlab2Gogs
